import Mathlib

/-
  Shallow embedding of the match engine of the SWOT strategy-mission game
  (src/swot-전략-미션(작업중)/App.tsx).  The data model follows §3 of the spec
  and the `Match`/`Team`/`RoundStrategy` records of the source; the handlers
  below are direct translations of the source functions `handleSubmitStrategy`,
  `handleFold`, `handleCall`, `adjustTempChips`, `confirmSteal`,
  `handleShowdown`, `handleConfirmResult` and the READY-evaluation effect.

  Numeric amounts (chips, winnings, pot, carry-over) are JavaScript numbers in
  the source; they are modelled as rationals, which is exact for every
  operation the engine performs (sums, differences and one halving).
-/

namespace SwotGame

/-- The two slots of a match. -/
inductive Side where
  | A
  | B
deriving DecidableEq, Repr

def Side.other : Side → Side
  | .A => .B
  | .B => .A

/-- Round status strings of the source (`roundStatus`). -/
inductive RoundStatus where
  | READY
  | DECISION
  | SHOWDOWN
  | RESULT
  | FINISHED
deriving DecidableEq, Repr

/-- Result codes of a RoundResult record. -/
inductive RResult where
  | A_WON
  | B_WON
  | DRAW
  | A_FOLDED
  | B_FOLDED
deriving DecidableEq, Repr

/-- One entry of a team's ten-round plan (`RoundStrategy` in types.ts):
a card (−1 while unplaced, otherwise 0..9) and a chip bet. -/
structure RoundStrategy where
  round : ℕ
  card : ℤ
  chips : ℚ
deriving DecidableEq, Repr, Inhabited

/-- The team fields the engine reads and writes. -/
structure Team where
  isReady : Bool
  winnings : ℚ
  strategy : List RoundStrategy
deriving DecidableEq, Repr, Inhabited

/-- An immutable history entry (`RoundResult` in types.ts). -/
structure RoundResult where
  round : ℕ
  teamACard : ℤ
  teamBCard : ℤ
  teamAChips : ℚ
  teamBChips : ℚ
  result : RResult
  potWon : ℚ
deriving DecidableEq, Repr

/-- The `resultConfirmed` map keyed by the two team ids; a missing entry is
falsy in the source, so the map is a pair of booleans defaulting to false. -/
structure Confirmed where
  a : Bool
  b : Bool
deriving DecidableEq, Repr

def Confirmed.get (c : Confirmed) : Side → Bool
  | .A => c.a
  | .B => c.b

def Confirmed.set (c : Confirmed) : Side → Bool → Confirmed
  | .A, v => { c with a := v }
  | .B, v => { c with b := v }

/-- The `lastAction` record `{ teamId, action }`. -/
inductive LastAction where
  | fold (s : Side)
  | call (s : Side)
deriving DecidableEq, Repr

/-- The match fields the engine reads and writes. -/
structure Match where
  currentRound : ℕ
  roundStatus : RoundStatus
  turnOwner : Option Side
  pot : ℚ
  carryOver : ℚ
  teamAScore : ℕ
  teamBScore : ℕ
  lastRoundResult : Option RoundResult
  resultConfirmed : Confirmed
  lastAction : Option LastAction
  history : List RoundResult
deriving DecidableEq, Repr

/-- The shared aggregate a handler call rewrites: both teams and the match. -/
structure GameState where
  teamA : Team
  teamB : Team
  mtch : Match
deriving DecidableEq, Repr

def GameState.team (g : GameState) : Side → Team
  | .A => g.teamA
  | .B => g.teamB

def GameState.setTeam (g : GameState) : Side → Team → GameState
  | .A, t => { g with teamA := t }
  | .B, t => { g with teamB := t }

/-- Modelled from the spec: `TOTAL_ROUNDS` is imported from types.ts, which is
not part of the repository snapshot; §3 of the spec fixes ten rounds. -/
def TOTAL_ROUNDS : ℕ := 10

/-- Modelled from the spec: `TOTAL_CHIPS` is imported from types.ts, which is
not part of the repository snapshot; §3 of the spec fixes the budget at 30. -/
def TOTAL_CHIPS : ℚ := 30

/-- `team.strategy![r - 1]`: the strategy entry of 1-based round `r`. -/
def stratAt (t : Team) (r : ℕ) : RoundStrategy :=
  t.strategy.getD (r - 1) default

/-- Total chips of a strategy (`strategy.reduce((acc, s) => acc + s.chips, 0)`). -/
def chipsSum (l : List RoundStrategy) : ℚ :=
  (l.map RoundStrategy.chips).sum

/-- Write an absolute chip amount at one index, leaving other entries alone
(`next[roundIdx] = { ...next[roundIdx], chips: newVal }`). -/
def setChips : List RoundStrategy → ℕ → ℚ → List RoundStrategy
  | [], _, _ => []
  | t :: ts, 0, v => { t with chips := v } :: ts
  | t :: ts, n + 1, v => t :: setChips ts n v

/-- Add a chip amount at one index
(`strategy.map((s, i) => i === currentRound - 1 ? { ...s, chips: s.chips + diff } : s)`). -/
def creditChips : List RoundStrategy → ℕ → ℚ → List RoundStrategy
  | [], _, _ => []
  | t :: ts, 0, d => { t with chips := t.chips + d } :: ts
  | t :: ts, n + 1, d => t :: creditChips ts n d

/-- Signed sum of chip differences over aligned entries; applied to the
`drop cur` suffixes it is the source's loop
`forEach((s, i) => { if (i >= currentRound && next[i]) total += s.chips - next[i].chips })`. -/
def diffSum : List RoundStrategy → List RoundStrategy → ℚ
  | o :: os, t :: ts => (o.chips - t.chips) + diffSum os ts
  | _, _ => 0

/-- Positive-part sum of chip differences over aligned entries; applied to the
`drop (currentRoundIdx + 1)` suffixes it is `confirmSteal`'s loop
`if (i > currentRoundIdx) { const d = s.chips - temp[i].chips; if (d > 0) stolenTotal += d }`. -/
def posDiffSum : List RoundStrategy → List RoundStrategy → ℚ
  | o :: os, t :: ts => (if 0 < o.chips - t.chips then o.chips - t.chips else 0) + posDiffSum os ts
  | _, _ => 0

/-- `calculateStolenAmount`: signed chips taken so far from rounds with index
`≥ currentRound`, comparing the locked strategy with the modal's draft. -/
def calculateStolenAmount (orig temp : List RoundStrategy) (cur : ℕ) : ℚ :=
  diffSum (orig.drop cur) (temp.drop cur)

/-- `canConfirmSteal = currentStolen >= neededChips`: the gate on the modal's
confirm button. -/
def canConfirmSteal (orig temp : List RoundStrategy) (cur : ℕ) (needed : ℚ) : Bool :=
  decide (needed ≤ calculateStolenAmount orig temp cur)

/-- The strategy-screen validator of `handleSubmitStrategy`:
`usedCards = strategy.map(s => s.card).filter(c => c !== -1)`. -/
def usedCards (strategy : List RoundStrategy) : List ℤ :=
  (strategy.map RoundStrategy.card).filter (fun c => c ≠ -1)

/-- `remainingChips = TOTAL_CHIPS - usedChips`. -/
def remainingChips (strategy : List RoundStrategy) : ℚ :=
  TOTAL_CHIPS - chipsSum strategy

/-- The non-admin acceptance test of `handleSubmitStrategy`: it alerts and
returns unless all ten cards are placed (`usedCards.length !== 10`) and the
balance is spent (`remainingChips !== 0`); otherwise the confirm dialog opens. -/
def submitAccepted (strategy : List RoundStrategy) : Bool :=
  decide ((usedCards strategy).length = 10) && decide (remainingChips strategy = 0)

/-- `confirmSubmit`: lock the submission
(`{ ...t, isReady: true, strategy }`). -/
def confirmSubmit (t : Team) (strategy : List RoundStrategy) : Team :=
  { t with isReady := true, strategy := strategy }

/-- `handleSubmitStrategy` followed by the player's confirmation: the team is
locked exactly when the validator accepts. -/
def handleSubmitStrategy (t : Team) (strategy : List RoundStrategy) : Team :=
  if submitAccepted strategy then confirmSubmit t strategy else t

/-- The READY-evaluation `useEffect`: it returns unless the room is playing,
only the team in the A slot runs it (`if (!isTeamA) return`), and in READY it
compares the two round bets — equal goes straight to SHOWDOWN, otherwise to
DECISION with the poorer side as `turnOwner`. -/
def readyEval (playing : Bool) (s : Side) (g : GameState) : GameState :=
  if !playing then g
  else if s ≠ Side.A then g
  else if g.mtch.roundStatus = RoundStatus.READY then
    let myStrat := stratAt (g.team s) g.mtch.currentRound
    let oppStrat := stratAt (g.team s.other) g.mtch.currentRound
    if myStrat.chips = oppStrat.chips then
      { g with mtch := { g.mtch with roundStatus := RoundStatus.SHOWDOWN } }
    else
      let fewer := if myStrat.chips < oppStrat.chips then s else s.other
      { g with mtch := { g.mtch with roundStatus := RoundStatus.DECISION,
                                     turnOwner := some fewer } }
  else g

/-- `handleFold`: the turn owner concedes; the opponent banks the whole pot
(own bet + opponent bet + carry-over), a `<side>_FOLDED` history item with
`potWon = pot` is recorded, and the match waits in RESULT for both
confirmations.  Note the match update does not touch `carryOver`. -/
def handleFold (s : Side) (g : GameState) : GameState :=
  if g.mtch.turnOwner ≠ some s then g
  else
    let cr := g.mtch.currentRound
    let myStrat := stratAt (g.team s) cr
    let oppStrat := stratAt (g.team s.other) cr
    let pot := myStrat.chips + oppStrat.chips + g.mtch.carryOver
    let updatedOpponent :=
      { g.team s.other with winnings := (g.team s.other).winnings + pot }
    let isTeamA := s = Side.A
    let item : RoundResult :=
      { round := cr
        teamACard := if isTeamA then myStrat.card else oppStrat.card
        teamBCard := if isTeamA then oppStrat.card else myStrat.card
        teamAChips := if isTeamA then myStrat.chips else oppStrat.chips
        teamBChips := if isTeamA then oppStrat.chips else myStrat.chips
        result := if isTeamA then RResult.A_FOLDED else RResult.B_FOLDED
        potWon := pot }
    let g1 := g.setTeam s.other updatedOpponent
    { g1 with mtch := { g1.mtch with
        roundStatus := RoundStatus.RESULT
        turnOwner := none
        lastAction := some (LastAction.fold s)
        lastRoundResult := some item
        resultConfirmed := ⟨false, false⟩
        history := g.mtch.history ++ [item] } }

/-- The component-local state `handleCall` creates when the caller is short:
`neededChips` and the cloned `tempStrategy` of the steal modal. -/
structure StealModal where
  needed : ℚ
  temp : List RoundStrategy
deriving DecidableEq, Repr

/-- `handleCall`: the turn owner matches the opponent's bet.  Funded
(`winnings >= diff`): `diff` moves from winnings into the current round's
chips and the match goes to SHOWDOWN.  Underfunded: the shared state is left
alone and the steal modal opens with `neededChips = diff - winnings`. -/
def handleCall (s : Side) (g : GameState) : GameState × Option StealModal :=
  if g.mtch.turnOwner ≠ some s then (g, none)
  else
    let cr := g.mtch.currentRound
    let myStrat := stratAt (g.team s) cr
    let oppStrat := stratAt (g.team s.other) cr
    let diff := oppStrat.chips - myStrat.chips
    let winnings := (g.team s).winnings
    if diff ≤ winnings then
      let updatedTeam :=
        { g.team s with
            winnings := winnings - diff
            strategy := creditChips (g.team s).strategy (cr - 1) diff }
      let g1 := g.setTeam s updatedTeam
      ({ g1 with mtch := { g1.mtch with
            roundStatus := RoundStatus.SHOWDOWN
            turnOwner := none
            lastAction := some (LastAction.call s) } }, none)
    else
      (g, some ⟨diff - winnings, (g.team s).strategy⟩)

/-- `adjustTempChips`: one modal click on a round's steal button.  A change
below the 1-chip floor is refused; a decrement whose resulting stolen total
would exceed `neededChips` is refused; otherwise the draft is updated. -/
def adjustTempChips (orig : List RoundStrategy) (cur : ℕ) (needed : ℚ)
    (temp : List RoundStrategy) (roundIdx : ℕ) (delta : ℚ) : List RoundStrategy :=
  let current := (temp.getD roundIdx default).chips
  let newVal := current + delta
  if newVal < 1 then temp
  else if delta < 0 then
    let next := setChips temp roundIdx newVal
    if needed < calculateStolenAmount orig next cur then temp else next
  else setChips temp roundIdx newVal

/-- The steal drafts the modal can actually produce: it starts from the locked
strategy (`JSON.parse(JSON.stringify(team.strategy))`) and every click is
`adjustTempChips(idx, -1)` on a rendered row, and only rows with
`idx >= currentRound` are rendered (`if (idx < currentRound) return null`). -/
inductive StealReach (orig : List RoundStrategy) (cur : ℕ) (needed : ℚ) :
    List RoundStrategy → Prop where
  | init : StealReach orig cur needed orig
  | step (temp : List RoundStrategy) (idx : ℕ) (hidx : cur ≤ idx)
      (h : StealReach orig cur needed temp) :
      StealReach orig cur needed (adjustTempChips orig cur needed temp idx (-1))

/-- `confirmSteal`: accept the draft — winnings are drained to 0, the current
round's chips become the draft value plus `diff`, and the match goes to
SHOWDOWN.  (The source also computes `stolenTotal`/`totalAvailable` here but
never uses them; the only gate is the modal button's `canConfirmSteal`.) -/
def confirmSteal (s : Side) (g : GameState) (temp : List RoundStrategy) : GameState :=
  let curIdx := g.mtch.currentRound - 1
  let diff := (stratAt (g.team s.other) g.mtch.currentRound).chips -
              (stratAt (g.team s) g.mtch.currentRound).chips
  let newCurrentChips := (temp.getD curIdx default).chips + diff
  let updatedStrategy := setChips temp curIdx newCurrentChips
  let updatedTeam := { g.team s with winnings := 0, strategy := updatedStrategy }
  let g1 := g.setTeam s updatedTeam
  { g1 with mtch := { g1.mtch with roundStatus := RoundStatus.SHOWDOWN,
                                   turnOwner := none } }

/-- Closing the steal modal (`setStealModalOpen(false)`): only the local modal
flag changes; the shared match/team record is untouched. -/
def stealCancel (g : GameState) : GameState := g

/-- `handleShowdown`: compare the round's cards.  The higher card banks the
pot and scores; a non-final draw rolls the pot into `carryOver`; a final-round
draw gives each team its own chips back plus half the carry-over. -/
def handleShowdown (g : GameState) : GameState :=
  if g.mtch.roundStatus ≠ RoundStatus.SHOWDOWN then g
  else
    let cr := g.mtch.currentRound
    let stratA := stratAt g.teamA cr
    let stratB := stratAt g.teamB cr
    let pot := stratA.chips + stratB.chips + g.mtch.carryOver
    let winner : RResult :=
      if stratB.card < stratA.card then RResult.A_WON
      else if stratA.card < stratB.card then RResult.B_WON
      else RResult.DRAW
    let winningsA :=
      if stratB.card < stratA.card then g.teamA.winnings + pot
      else if stratA.card < stratB.card then g.teamA.winnings
      else if cr = TOTAL_ROUNDS then g.teamA.winnings + stratA.chips + g.mtch.carryOver / 2
      else g.teamA.winnings
    let winningsB :=
      if stratB.card < stratA.card then g.teamB.winnings
      else if stratA.card < stratB.card then g.teamB.winnings + pot
      else if cr = TOTAL_ROUNDS then g.teamB.winnings + stratB.chips + g.mtch.carryOver / 2
      else g.teamB.winnings
    let scoreA := if stratB.card < stratA.card then g.mtch.teamAScore + 1 else g.mtch.teamAScore
    let scoreB := if stratA.card < stratB.card then g.mtch.teamBScore + 1 else g.mtch.teamBScore
    let carryOver :=
      if stratB.card < stratA.card then 0
      else if stratA.card < stratB.card then 0
      else if cr = TOTAL_ROUNDS then 0
      else pot
    let item : RoundResult :=
      { round := cr
        teamACard := stratA.card
        teamBCard := stratB.card
        teamAChips := stratA.chips
        teamBChips := stratB.chips
        result := winner
        potWon := if winner = RResult.DRAW then 0 else pot }
    { teamA := { g.teamA with winnings := winningsA }
      teamB := { g.teamB with winnings := winningsB }
      mtch := { g.mtch with
        roundStatus := RoundStatus.RESULT
        turnOwner := none
        pot := 0
        carryOver := carryOver
        teamAScore := scoreA
        teamBScore := scoreB
        lastRoundResult := some item
        resultConfirmed := ⟨false, false⟩
        history := g.mtch.history ++ [item] } }

/-- `handleConfirmResult`: record this team's confirmation; when both entries
of the updated map are true, advance to the next round (or finish after round
`TOTAL_ROUNDS`) and clear the map, `lastRoundResult` and `lastAction`.  The
source has no `roundStatus` guard — the handler acts in any status. -/
def handleConfirmResult (s : Side) (m : Match) : Match :=
  let confirmed := m.resultConfirmed.set s true
  let bothConfirmed := confirmed.a && confirmed.b
  let nextRound := m.currentRound + 1
  let isGameEnd := TOTAL_ROUNDS < nextRound
  if bothConfirmed then
    { m with
        currentRound := if isGameEnd then m.currentRound else nextRound
        roundStatus := if isGameEnd then RoundStatus.FINISHED else RoundStatus.READY
        resultConfirmed := ⟨false, false⟩
        lastRoundResult := none
        lastAction := none }
  else
    { m with resultConfirmed := confirmed }

/-- `confirmSteal`'s `stolenTotal`: chips actually removed from rounds with
index strictly beyond `currentRoundIdx`, counting only positive differences. -/
def stolenTotalOf (orig temp : List RoundStrategy) (curIdx : ℕ) : ℚ :=
  posDiffSum (orig.drop (curIdx + 1)) (temp.drop (curIdx + 1))

/-- Winnings plus the chips still allocated across all ten rounds: the
resource total that Call and an accepted Steal should preserve. -/
def totalResources (t : Team) : ℚ :=
  t.winnings + chipsSum t.strategy

/-- The pot of the current round as every handler computes it:
both teams' bets plus the carry-over. -/
def potAt (g : GameState) : ℚ :=
  (stratAt g.teamA g.mtch.currentRound).chips +
    (stratAt g.teamB g.mtch.currentRound).chips + g.mtch.carryOver

/- Concrete inputs used to evaluate the handlers. -/

/-- A valid locked strategy: cards are a permutation of 0..9, chips sum to 30. -/
def stratA1 : List RoundStrategy :=
  [⟨1, 5, 2⟩, ⟨2, 2, 3⟩, ⟨3, 7, 3⟩, ⟨4, 0, 3⟩, ⟨5, 3, 3⟩,
   ⟨6, 9, 3⟩, ⟨7, 1, 3⟩, ⟨8, 4, 3⟩, ⟨9, 6, 3⟩, ⟨10, 8, 4⟩]

/-- A valid locked strategy for the opposing team (round 5 bets 6 chips). -/
def stratB1 : List RoundStrategy :=
  [⟨1, 3, 5⟩, ⟨2, 6, 2⟩, ⟨3, 0, 3⟩, ⟨4, 1, 3⟩, ⟨5, 2, 6⟩,
   ⟨6, 7, 3⟩, ⟨7, 4, 3⟩, ⟨8, 5, 3⟩, ⟨9, 8, 1⟩, ⟨10, 9, 1⟩]

/-- Scenario C of the spec: round 5, the folding team bet 3, the opponent 6,
carry-over 1; the folding team (slot A) owns the turn in DECISION. -/
def foldInputC : GameState :=
  { teamA := ⟨true, 10, stratA1⟩
    teamB := ⟨true, 4, stratB1⟩
    mtch := { currentRound := 5, roundStatus := RoundStatus.DECISION,
              turnOwner := some Side.A, pot := 0, carryOver := 1,
              teamAScore := 1, teamBScore := 2, lastRoundResult := none,
              resultConfirmed := ⟨false, false⟩, lastAction := none,
              history := [] } }

/-- Scenario C with an underfunded caller: winnings 1 against a difference of
3, so a Call opens the steal modal with `neededChips = 2`. -/
def callPoorInput : GameState :=
  { foldInputC with teamA := ⟨true, 1, stratA1⟩ }

/-- The steal draft after two modal clicks: one chip taken from round 6 and
one from round 8 (indices 5 and 7, both beyond the current round 5). -/
def tempW : List RoundStrategy :=
  adjustTempChips stratA1 5 2 (adjustTempChips stratA1 5 2 stratA1 5 (-1)) 7 (-1)

/-- A strategy with card 8 placed twice and no card 9 (all ten entries carry
a card, chips sum to 30). -/
def dupStrategy : List RoundStrategy :=
  [⟨1, 0, 3⟩, ⟨2, 1, 3⟩, ⟨3, 2, 3⟩, ⟨4, 3, 3⟩, ⟨5, 4, 3⟩,
   ⟨6, 5, 3⟩, ⟨7, 6, 3⟩, ⟨8, 7, 3⟩, ⟨9, 8, 3⟩, ⟨10, 8, 3⟩]

/-- A strategy whose first round bets 0 chips (cards 0..9, chips sum 30). -/
def zeroChipStrategy : List RoundStrategy :=
  [⟨1, 0, 0⟩, ⟨2, 1, 6⟩, ⟨3, 2, 3⟩, ⟨4, 3, 3⟩, ⟨5, 4, 3⟩,
   ⟨6, 5, 3⟩, ⟨7, 6, 3⟩, ⟨8, 7, 3⟩, ⟨9, 8, 3⟩, ⟨10, 9, 3⟩]

/-- An unlocked team about to submit. -/
def freshTeam : Team := ⟨false, 0, []⟩

/-- A match sitting in DECISION (no result to confirm). -/
def mDecision : Match :=
  { currentRound := 5, roundStatus := RoundStatus.DECISION,
    turnOwner := some Side.B, pot := 0, carryOver := 0,
    teamAScore := 1, teamBScore := 2, lastRoundResult := none,
    resultConfirmed := ⟨false, false⟩, lastAction := none, history := [] }

/-- A match in RESULT at round 3 where team B has already confirmed. -/
def mResult3 : Match :=
  { currentRound := 3, roundStatus := RoundStatus.RESULT,
    turnOwner := none, pot := 0, carryOver := 0,
    teamAScore := 1, teamBScore := 1, lastRoundResult := none,
    resultConfirmed := ⟨false, true⟩, lastAction := none, history := [] }

/-- A match in RESULT at round 5 where nobody has confirmed yet. -/
def mResult5 : Match :=
  { currentRound := 5, roundStatus := RoundStatus.RESULT,
    turnOwner := none, pot := 0, carryOver := 0,
    teamAScore := 2, teamBScore := 2, lastRoundResult := none,
    resultConfirmed := ⟨false, false⟩, lastAction := none, history := [] }

/-- Scenario B variant with an odd pot: round 10, both teams bet 4 on card 7,
carry-over 1, so the pot is 9 and each half is 9/2. -/
def drawInput : GameState :=
  { teamA := ⟨true, 3,
      [⟨1, 5, 2⟩, ⟨2, 2, 3⟩, ⟨3, 8, 3⟩, ⟨4, 0, 3⟩, ⟨5, 3, 3⟩,
       ⟨6, 9, 3⟩, ⟨7, 1, 3⟩, ⟨8, 4, 3⟩, ⟨9, 6, 3⟩, ⟨10, 7, 4⟩]⟩
    teamB := ⟨true, 6,
      [⟨1, 3, 5⟩, ⟨2, 6, 2⟩, ⟨3, 0, 3⟩, ⟨4, 1, 3⟩, ⟨5, 2, 4⟩,
       ⟨6, 8, 3⟩, ⟨7, 4, 2⟩, ⟨8, 5, 2⟩, ⟨9, 9, 2⟩, ⟨10, 7, 4⟩]⟩
    mtch := { currentRound := 10, roundStatus := RoundStatus.SHOWDOWN,
              turnOwner := none, pot := 0, carryOver := 1,
              teamAScore := 4, teamBScore := 4, lastRoundResult := none,
              resultConfirmed := ⟨false, false⟩, lastAction := none,
              history := [] } }

/-- Scenario A's showdown: round 3, equal bets of 3, card 7 against card 0,
carry-over 0. -/
def winInput : GameState :=
  { teamA := ⟨true, 10, stratA1⟩
    teamB := ⟨true, 4, stratB1⟩
    mtch := { currentRound := 3, roundStatus := RoundStatus.SHOWDOWN,
              turnOwner := none, pot := 0, carryOver := 0,
              teamAScore := 1, teamBScore := 1, lastRoundResult := none,
              resultConfirmed := ⟨false, false⟩, lastAction := none,
              history := [] } }

/-- Round 1 in READY: team A bet 2 chips, team B bet 5. -/
def readyInput : GameState :=
  { teamA := ⟨true, 0, stratA1⟩
    teamB := ⟨true, 0, stratB1⟩
    mtch := { currentRound := 1, roundStatus := RoundStatus.READY,
              turnOwner := none, pot := 0, carryOver := 0,
              teamAScore := 0, teamBScore := 0, lastRoundResult := none,
              resultConfirmed := ⟨false, false⟩, lastAction := none,
              history := [] } }

/- Helper lemmas about the list operations. -/

theorem setChips_length (l : List RoundStrategy) (i : ℕ) (v : ℚ) :
    (setChips l i v).length = l.length := by
  induction l generalizing i with
  | nil => rfl
  | cons t ts ih => cases i with
    | zero => rfl
    | succ n => simpa [setChips] using ih n

theorem setChips_getD_same (l : List RoundStrategy) (i : ℕ) (v : ℚ) (d : RoundStrategy)
    (h : i < l.length) :
    (setChips l i v).getD i d = { l.getD i d with chips := v } := by
  induction l generalizing i with
  | nil => simp at h
  | cons t ts ih => cases i with
    | zero => rfl
    | succ n =>
      have := ih n (by simpa using h)
      simpa [setChips] using this

theorem setChips_getD_ne (l : List RoundStrategy) (i j : ℕ) (v : ℚ) (d : RoundStrategy)
    (h : j ≠ i) : (setChips l i v).getD j d = l.getD j d := by
  induction l generalizing i j with
  | nil => rfl
  | cons t ts ih =>
    cases i with
    | zero => cases j with
      | zero => exact absurd rfl h
      | succ m => rfl
    | succ n => cases j with
      | zero => rfl
      | succ m => simpa [setChips] using ih n m (fun hc => h (by omega))

theorem setChips_take (l : List RoundStrategy) (i cur : ℕ) (v : ℚ) (h : cur ≤ i) :
    (setChips l i v).take cur = l.take cur := by
  induction l generalizing i cur with
  | nil => rfl
  | cons t ts ih =>
    cases i with
    | zero =>
      have : cur = 0 := Nat.le_zero.mp h
      simp [this]
    | succ n =>
      cases cur with
      | zero => simp
      | succ m => simpa [setChips] using ih n m (by omega)

theorem chipsSum_cons (t : RoundStrategy) (ts : List RoundStrategy) :
    chipsSum (t :: ts) = t.chips + chipsSum ts := by
  simp [chipsSum]

theorem chipsSum_setChips (l : List RoundStrategy) (i : ℕ) (v : ℚ)
    (h : i < l.length) :
    chipsSum (setChips l i v) = chipsSum l - (l.getD i default).chips + v := by
  induction l generalizing i with
  | nil => simp at h
  | cons t ts ih =>
    cases i with
    | zero => simp [setChips, chipsSum_cons]; ring
    | succ n =>
      have := ih n (by simpa using h)
      simp only [setChips, chipsSum_cons, this, List.getD_cons_succ]
      ring

theorem creditChips_length (l : List RoundStrategy) (i : ℕ) (v : ℚ) :
    (creditChips l i v).length = l.length := by
  induction l generalizing i with
  | nil => rfl
  | cons t ts ih => cases i with
    | zero => rfl
    | succ n => simpa [creditChips] using ih n

theorem creditChips_getD_same (l : List RoundStrategy) (i : ℕ) (v : ℚ) (d : RoundStrategy)
    (h : i < l.length) :
    (creditChips l i v).getD i d = { l.getD i d with chips := (l.getD i d).chips + v } := by
  induction l generalizing i with
  | nil => simp at h
  | cons t ts ih => cases i with
    | zero => rfl
    | succ n =>
      have := ih n (by simpa using h)
      simpa [creditChips] using this

theorem chipsSum_creditChips (l : List RoundStrategy) (i : ℕ) (v : ℚ)
    (h : i < l.length) :
    chipsSum (creditChips l i v) = chipsSum l + v := by
  induction l generalizing i with
  | nil => simp at h
  | cons t ts ih =>
    cases i with
    | zero => simp [creditChips, chipsSum_cons]; ring
    | succ n =>
      have := ih n (by simpa using h)
      simp only [creditChips, chipsSum_cons, this]
      ring

theorem diffSum_self (l : List RoundStrategy) : diffSum l l = 0 := by
  induction l with
  | nil => rfl
  | cons t ts ih => simp [diffSum, ih]

theorem diffSum_eq_sub (l₁ l₂ : List RoundStrategy) (h : l₁.length = l₂.length) :
    diffSum l₁ l₂ = chipsSum l₁ - chipsSum l₂ := by
  induction l₁ generalizing l₂ with
  | nil =>
    have : l₂ = [] := List.length_eq_zero.mp (by simpa using h.symm)
    simp [this, diffSum, chipsSum]
  | cons t ts ih =>
    cases l₂ with
    | nil => simp at h
    | cons u us =>
      have := ih us (by simpa using h)
      simp only [diffSum, chipsSum_cons, this]
      ring

theorem chipsSum_take_drop (l : List RoundStrategy) (n : ℕ) :
    chipsSum l = chipsSum (l.take n) + chipsSum (l.drop n) := by
  conv_lhs => rw [← List.take_append_drop n l]
  simp [chipsSum]

theorem posDiffSum_eq_diffSum (l₁ l₂ : List RoundStrategy)
    (h : List.Forall₂ (fun o t => t.chips ≤ o.chips) l₁ l₂) :
    posDiffSum l₁ l₂ = diffSum l₁ l₂ := by
  induction h with
  | nil => rfl
  | cons hab hrest ih =>
    rename_i a b as bs
    simp only [posDiffSum, diffSum, ih]
    by_cases hd : 0 < a.chips - b.chips
    · simp [hd]
    · have : a.chips - b.chips = 0 := by linarith [le_of_not_lt hd]
      simp [hd, this]

/- Case analysis of one modal click. -/

theorem adjustTempChips_spec (orig : List RoundStrategy) (cur : ℕ) (needed : ℚ)
    (temp : List RoundStrategy) (idx : ℕ) (delta : ℚ) :
    adjustTempChips orig cur needed temp idx delta = temp ∨
      (adjustTempChips orig cur needed temp idx delta =
          setChips temp idx ((temp.getD idx default).chips + delta) ∧
        1 ≤ (temp.getD idx default).chips + delta ∧
        (delta < 0 →
          calculateStolenAmount orig
              (setChips temp idx ((temp.getD idx default).chips + delta)) cur ≤ needed)) := by
  simp only [adjustTempChips]
  split_ifs with h1 h2 h3
  · exact Or.inl rfl
  · exact Or.inl rfl
  · exact Or.inr ⟨rfl, by linarith [not_lt.mp h1], fun _ => not_lt.mp h3⟩
  · exact Or.inr ⟨rfl, by linarith [not_lt.mp h1], fun hc => absurd hc h2⟩

/- Invariants of every draft the steal modal can reach. -/

theorem StealReach.length_eq {orig : List RoundStrategy} {cur : ℕ} {needed : ℚ}
    {temp : List RoundStrategy} (h : StealReach orig cur needed temp) :
    temp.length = orig.length := by
  induction h with
  | init => rfl
  | step temp idx hidx hr ih =>
    rcases adjustTempChips_spec orig cur needed temp idx (-1) with heq | ⟨heq, _, _⟩
    · rw [heq]; exact ih
    · rw [heq, setChips_length]; exact ih

theorem StealReach.take_eq {orig : List RoundStrategy} {cur : ℕ} {needed : ℚ}
    {temp : List RoundStrategy} (h : StealReach orig cur needed temp) :
    temp.take cur = orig.take cur := by
  induction h with
  | init => rfl
  | step temp idx hidx hr ih =>
    rcases adjustTempChips_spec orig cur needed temp idx (-1) with heq | ⟨heq, _, _⟩
    · rw [heq]; exact ih
    · rw [heq, setChips_take _ _ _ _ hidx]; exact ih

theorem chipsLe_setChips (o t : List RoundStrategy) (idx : ℕ) (v : ℚ)
    (h : List.Forall₂ (fun a b => b.chips ≤ a.chips) o t)
    (hv : v ≤ (t.getD idx default).chips) :
    List.Forall₂ (fun a b => b.chips ≤ a.chips) o (setChips t idx v) := by
  induction h generalizing idx with
  | nil => exact List.Forall₂.nil
  | cons hab hrest ih =>
    rename_i a b as bs
    cases idx with
    | zero =>
      exact List.Forall₂.cons (le_trans (by simpa using hv) hab) hrest
    | succ n =>
      exact List.Forall₂.cons hab (ih n (by simpa using hv))

theorem StealReach.chips_le {orig : List RoundStrategy} {cur : ℕ} {needed : ℚ}
    {temp : List RoundStrategy} (h : StealReach orig cur needed temp) :
    List.Forall₂ (fun a b => b.chips ≤ a.chips) orig temp := by
  induction h with
  | init => exact List.forall₂_same.mpr (fun a _ => le_refl a.chips)
  | step temp idx hidx hr ih =>
    rcases adjustTempChips_spec orig cur needed temp idx (-1) with heq | ⟨heq, _, _⟩
    · rw [heq]; exact ih
    · rw [heq]
      exact chipsLe_setChips _ _ _ _ ih (by linarith)

theorem setChips_mem_ge_one (l : List RoundStrategy) (i : ℕ) (v : ℚ)
    (h : ∀ r ∈ l, 1 ≤ r.chips) (hv : 1 ≤ v) :
    ∀ r ∈ setChips l i v, 1 ≤ r.chips := by
  induction l generalizing i with
  | nil => intro r hr; simp [setChips] at hr
  | cons t ts ih =>
    cases i with
    | zero =>
      intro r hr
      rcases List.mem_cons.mp hr with h0 | h0
      · rw [h0]; exact hv
      · exact h r (List.mem_cons_of_mem _ h0)
    | succ n =>
      intro r hr
      rcases List.mem_cons.mp hr with h0 | h0
      · rw [h0]; exact h t (List.mem_cons_self _ _)
      · exact ih n (fun x hx => h x (List.mem_cons_of_mem _ hx)) r h0

theorem StealReach.chips_ge_one {orig : List RoundStrategy} {cur : ℕ} {needed : ℚ}
    {temp : List RoundStrategy} (h : StealReach orig cur needed temp)
    (h1 : ∀ r ∈ orig, 1 ≤ r.chips) :
    ∀ r ∈ temp, 1 ≤ r.chips := by
  induction h with
  | init => exact h1
  | step temp idx hidx hr ih =>
    rcases adjustTempChips_spec orig cur needed temp idx (-1) with heq | ⟨heq, hge, _⟩
    · rw [heq]; exact ih
    · rw [heq]
      exact setChips_mem_ge_one _ _ _ ih hge

theorem StealReach.stolen_le_needed {orig : List RoundStrategy} {cur : ℕ} {needed : ℚ}
    {temp : List RoundStrategy} (h : StealReach orig cur needed temp)
    (hn : 0 ≤ needed) :
    calculateStolenAmount orig temp cur ≤ needed := by
  induction h with
  | init =>
    unfold calculateStolenAmount
    rw [diffSum_self]
    exact hn
  | step temp idx hidx hr ih =>
    rcases adjustTempChips_spec orig cur needed temp idx (-1) with heq | ⟨heq, _, hbound⟩
    · rw [heq]; exact ih
    · rw [heq]
      exact hbound (by norm_num)

/-- The chips missing from a reached draft are exactly the stolen amount. -/
theorem StealReach.chipsSum_eq {orig : List RoundStrategy} {cur : ℕ} {needed : ℚ}
    {temp : List RoundStrategy} (h : StealReach orig cur needed temp) :
    chipsSum temp = chipsSum orig - calculateStolenAmount orig temp cur := by
  have hlen : temp.length = orig.length := h.length_eq
  have htake : temp.take cur = orig.take cur := h.take_eq
  have hdroplen : (orig.drop cur).length = (temp.drop cur).length := by
    simp [hlen]
  have hds : calculateStolenAmount orig temp cur =
      chipsSum (orig.drop cur) - chipsSum (temp.drop cur) := by
    unfold calculateStolenAmount
    exact diffSum_eq_sub _ _ hdroplen
  rw [hds, chipsSum_take_drop temp cur, chipsSum_take_drop orig cur, htake]
  ring

/-- On a reached draft the signed stolen amount agrees with `confirmSteal`'s
positive-part `stolenTotal`. -/
theorem StealReach.stolenTotal_eq {orig : List RoundStrategy} {cur : ℕ} {needed : ℚ}
    {temp : List RoundStrategy} (h : StealReach orig cur needed temp) (hcur : 1 ≤ cur) :
    stolenTotalOf orig temp (cur - 1) = calculateStolenAmount orig temp cur := by
  unfold stolenTotalOf calculateStolenAmount
  have hc : cur - 1 + 1 = cur := Nat.succ_pred_eq_of_pos hcur
  rw [hc]
  exact posDiffSum_eq_diffSum _ _ (List.forall₂_drop cur h.chips_le)

/-- C1: at the spec's Scenario C input (round 5, own bet 3, opponent bet 6,
carry-over 1, team A folding as turn owner) the code pays the full pot 10 to
the opponent, records A_FOLDED with potWon 10, and moves to RESULT — but it
leaves `carryOver` at 1 instead of resetting it to 0 as the claim states, so
the already-paid-out carry-over would be counted again in the next round's
pot. -/
theorem c1_fold_scenarioC_keeps_carryOver :
    (handleFold Side.A foldInputC).teamB.winnings = foldInputC.teamB.winnings + 10 ∧
    (handleFold Side.A foldInputC).mtch.lastRoundResult =
      some ⟨5, 3, 2, 3, 6, RResult.A_FOLDED, 10⟩ ∧
    (handleFold Side.A foldInputC).mtch.roundStatus = RoundStatus.RESULT ∧
    (handleFold Side.A foldInputC).teamA.winnings = foldInputC.teamA.winnings ∧
    (handleFold Side.A foldInputC).mtch.carryOver = 1 := by
  refine ⟨?_, ?_, ?_, ?_, ?_⟩ <;>
    simp [handleFold, foldInputC, stratA1, stratB1, stratAt, Side.other,
          GameState.team, GameState.setTeam] <;> norm_num

/-- C3: the claim says a `confirmResult` issued while the round is still in
DECISION changes nothing; the handler has no `roundStatus` guard, so the call
records the confirming team in `resultConfirmed` even in DECISION. -/
theorem c3_confirm_in_decision_mutates_state :
    mDecision.roundStatus = RoundStatus.DECISION ∧
    (handleConfirmResult Side.A mDecision).resultConfirmed = ⟨true, false⟩ ∧
    handleConfirmResult Side.A mDecision ≠ mDecision := by
  refine ⟨rfl, ?_, ?_⟩ <;>
    simp [handleConfirmResult, mDecision, Confirmed.set, TOTAL_ROUNDS]

/-- C2 counterexample: the claim says submission rejects any strategy whose
cards are not exactly 0..9 and any strategy with a round below 1 chip.  The
validator only checks that all ten cards are placed and that the chips sum to
30: a strategy with card 8 twice and no card 9 is accepted and locks the
team, and so is a strategy with a 0-chip round. -/
theorem c2_duplicate_and_zero_chip_accepted :
    submitAccepted dupStrategy = true ∧
    (dupStrategy.map RoundStrategy.card).count 8 = 2 ∧
    (dupStrategy.map RoundStrategy.card).count 9 = 0 ∧
    (handleSubmitStrategy freshTeam dupStrategy).isReady = true ∧
    submitAccepted zeroChipStrategy = true ∧
    (zeroChipStrategy.getD 0 default).chips = 0 ∧
    (handleSubmitStrategy freshTeam zeroChipStrategy).isReady = true := by
  have h1 : submitAccepted dupStrategy = true := by
    simp [submitAccepted, usedCards, remainingChips, chipsSum, TOTAL_CHIPS, dupStrategy]
    norm_num
  have h2 : submitAccepted zeroChipStrategy = true := by
    simp [submitAccepted, usedCards, remainingChips, chipsSum, TOTAL_CHIPS, zeroChipStrategy]
    norm_num
  refine ⟨h1, by decide, by decide, ?_, h2, by norm_num [zeroChipStrategy], ?_⟩
  · simp [handleSubmitStrategy, h1, confirmSubmit, freshTeam]
  · simp [handleSubmitStrategy, h2, confirmSubmit, freshTeam]

/-- C2 (amended): for a ten-entry strategy, submission is accepted — and the
team locked — exactly when every entry's card is placed (not −1) and the
chips sum to `TOTAL_CHIPS`; in particular every strategy that is valid in the
spec's sense (cards a permutation of 0..9, chip sum 30) is accepted, but
duplicate cards or rounds below 1 chip are not by themselves rejected. -/
theorem c2_submit_accepts_iff (strategy : List RoundStrategy) (t : Team)
    (h10 : strategy.length = 10) :
    (submitAccepted strategy = true ↔
      ((∀ r ∈ strategy, r.card ≠ -1) ∧ chipsSum strategy = TOTAL_CHIPS)) ∧
    ((strategy.map RoundStrategy.card).Perm [0, 1, 2, 3, 4, 5, 6, 7, 8, 9] →
      chipsSum strategy = TOTAL_CHIPS →
      submitAccepted strategy = true ∧
        (handleSubmitStrategy t strategy).isReady = true ∧
        (handleSubmitStrategy t strategy).strategy = strategy) := by
  have hmaplen : (strategy.map RoundStrategy.card).length = 10 := by simpa using h10
  have hiff : submitAccepted strategy = true ↔
      ((∀ r ∈ strategy, r.card ≠ -1) ∧ chipsSum strategy = TOTAL_CHIPS) := by
    unfold submitAccepted usedCards remainingChips
    rw [Bool.and_eq_true, decide_eq_true_eq, decide_eq_true_eq]
    constructor
    · rintro ⟨hlen, hsum⟩
      have hfil : (strategy.map RoundStrategy.card).filter (fun c => c ≠ -1) =
          strategy.map RoundStrategy.card :=
        (List.filter_sublist _).eq_of_length (by rw [hlen, hmaplen])
      refine ⟨?_, by linarith⟩
      intro r hr
      have := List.filter_eq_self.mp hfil r.card (List.mem_map_of_mem _ hr)
      simpa using this
    · rintro ⟨hcards, hsum⟩
      constructor
      · have hfil : (strategy.map RoundStrategy.card).filter (fun c => c ≠ -1) =
            strategy.map RoundStrategy.card := by
          apply List.filter_eq_self.mpr
          intro a ha
          rcases List.mem_map.mp ha with ⟨r, hr, rfl⟩
          simpa using hcards r hr
        rw [hfil, hmaplen]
      · rw [hsum]; ring
  refine ⟨hiff, fun hperm hsum => ?_⟩
  have hcards : ∀ r ∈ strategy, r.card ≠ -1 := by
    intro r hr hcon
    have hmem : (-1 : ℤ) ∈ strategy.map RoundStrategy.card := by
      rw [← hcon]; exact List.mem_map_of_mem _ hr
    have : (-1 : ℤ) ∈ ([0, 1, 2, 3, 4, 5, 6, 7, 8, 9] : List ℤ) :=
      hperm.mem_iff.mp hmem
    simp at this
  have hacc : submitAccepted strategy = true := hiff.mpr ⟨hcards, hsum⟩
  exact ⟨hacc, by simp [handleSubmitStrategy, hacc, confirmSubmit],
    by simp [handleSubmitStrategy, hacc, confirmSubmit]⟩

/-- C2 witness: the amended statement evaluated on a concrete valid strategy
(cards 5,2,7,0,3,9,1,4,6,8 — a permutation of 0..9 — chips summing to 30):
it is accepted and locks the submitting team. -/
theorem c2_submit_accepts_iff_witness :
    submitAccepted stratA1 = true ∧
      (handleSubmitStrategy freshTeam stratA1).isReady = true ∧
      (handleSubmitStrategy freshTeam stratA1).strategy = stratA1 :=
  (c2_submit_accepts_iff stratA1 freshTeam (by decide)).2
    (by decide) (by norm_num [chipsSum, stratA1, TOTAL_CHIPS])

/-- C4: on a showdown draw in the final round (round 10; the two bets are
equal, the invariant every SHOWDOWN entry satisfies), each team's winnings
grow by exactly half the pot, the recorded result is DRAW with potWon 0, and
the division is exact rational division: an odd pot makes each half
non-integer. -/
theorem c4_final_draw_splits_pot (g : GameState)
    (hs : g.mtch.roundStatus = RoundStatus.SHOWDOWN)
    (hr : g.mtch.currentRound = 10)
    (hcard : (stratAt g.teamA 10).card = (stratAt g.teamB 10).card)
    (hchips : (stratAt g.teamA 10).chips = (stratAt g.teamB 10).chips) :
    (handleShowdown g).teamA.winnings = g.teamA.winnings + potAt g / 2 ∧
    (handleShowdown g).teamB.winnings = g.teamB.winnings + potAt g / 2 ∧
    (handleShowdown g).mtch.lastRoundResult.map RoundResult.result =
      some RResult.DRAW ∧
    (handleShowdown g).mtch.lastRoundResult.map RoundResult.potWon = some 0 ∧
    (∀ k : ℤ, potAt g = 2 * k + 1 → ¬ ∃ n : ℤ, potAt g / 2 = (n : ℚ)) := by
  have hodd : ∀ k : ℤ, potAt g = 2 * k + 1 → ¬ ∃ n : ℤ, potAt g / 2 = (n : ℚ) := by
    rintro k hk ⟨n, hn⟩
    rw [hk] at hn
    have h2 : ((2 * k + 1 : ℤ) : ℚ) = 2 * (n : ℚ) := by
      push_cast
      linarith
    have : (2 * k + 1 : ℤ) = 2 * n := by exact_mod_cast h2
    omega
  have hnc1 : ¬ (stratAt g.teamB 10).card < (stratAt g.teamA 10).card := by
    rw [hcard]; exact lt_irrefl _
  have hnc2 : ¬ (stratAt g.teamA 10).card < (stratAt g.teamB 10).card := by
    rw [hcard]; exact lt_irrefl _
  refine ⟨?_, ?_, ?_, ?_, hodd⟩ <;>
    simp [handleShowdown, hs, hr, TOTAL_ROUNDS, potAt, hnc1, hnc2] <;>
    linarith [hchips]

/-- C4 witness: round 10, both teams bet 4 chips on card 7 with carry-over 1:
the pot is 9, each side's winnings grow by 9/2, the result is a DRAW with
potWon 0, and 9/2 is not an integer. -/
theorem c4_final_draw_splits_pot_witness :
    (handleShowdown drawInput).teamA.winnings =
        drawInput.teamA.winnings + potAt drawInput / 2 ∧
      (handleShowdown drawInput).teamB.winnings =
        drawInput.teamB.winnings + potAt drawInput / 2 ∧
      (handleShowdown drawInput).mtch.lastRoundResult.map RoundResult.result =
        some RResult.DRAW ∧
      (handleShowdown drawInput).mtch.lastRoundResult.map RoundResult.potWon =
        some 0 ∧
      (∀ k : ℤ, potAt drawInput = 2 * k + 1 → ¬ ∃ n : ℤ, potAt drawInput / 2 = (n : ℚ)) :=
  c4_final_draw_splits_pot drawInput rfl rfl (by decide)
    (by norm_num [stratAt, drawInput])

/-- C5: pot conservation.  After a Fold the opponent's winnings grow by
exactly the recorded `potWon`, which equals both bets plus the carry-over,
and the folder's winnings are untouched.  After a Showdown the winner's
winnings grow by exactly `potWon = potAt g` and the loser's are untouched;
on a non-final draw `potWon = 0`, neither side's winnings change, and the
new carry-over is the whole pot. -/
theorem c5_pot_conservation (g : GameState) (s : Side) :
    (g.mtch.turnOwner = some s →
      ((handleFold s g).team s.other).winnings = (g.team s.other).winnings + potAt g ∧
      (handleFold s g).mtch.lastRoundResult.map RoundResult.potWon = some (potAt g) ∧
      ((handleFold s g).team s).winnings = (g.team s).winnings) ∧
    (g.mtch.roundStatus = RoundStatus.SHOWDOWN →
      ((stratAt g.teamB g.mtch.currentRound).card <
          (stratAt g.teamA g.mtch.currentRound).card →
        (handleShowdown g).teamA.winnings = g.teamA.winnings + potAt g ∧
        (handleShowdown g).teamB.winnings = g.teamB.winnings ∧
        (handleShowdown g).mtch.lastRoundResult.map RoundResult.potWon =
          some (potAt g)) ∧
      ((stratAt g.teamA g.mtch.currentRound).card <
          (stratAt g.teamB g.mtch.currentRound).card →
        (handleShowdown g).teamB.winnings = g.teamB.winnings + potAt g ∧
        (handleShowdown g).teamA.winnings = g.teamA.winnings ∧
        (handleShowdown g).mtch.lastRoundResult.map RoundResult.potWon =
          some (potAt g)) ∧
      ((stratAt g.teamA g.mtch.currentRound).card =
          (stratAt g.teamB g.mtch.currentRound).card →
        g.mtch.currentRound ≠ TOTAL_ROUNDS →
        (handleShowdown g).teamA.winnings = g.teamA.winnings ∧
        (handleShowdown g).teamB.winnings = g.teamB.winnings ∧
        (handleShowdown g).mtch.lastRoundResult.map RoundResult.potWon = some 0 ∧
        (handleShowdown g).mtch.carryOver = potAt g)) := by
  constructor
  · intro hturn
    cases s with
    | A =>
      refine ⟨?_, ?_, ?_⟩ <;>
        simp [handleFold, hturn, Side.other, GameState.team, GameState.setTeam,
              potAt]
    | B =>
      refine ⟨?_, ?_, ?_⟩ <;>
        simp [handleFold, hturn, Side.other, GameState.team, GameState.setTeam,
              potAt] <;>
        ring
  · intro hshow
    refine ⟨fun hA => ?_, fun hB => ?_, fun heq hne => ?_⟩
    · refine ⟨?_, ?_, ?_⟩ <;>
        simp [handleShowdown, hshow, hA, potAt]
    · have h1 : ¬ (stratAt g.teamB g.mtch.currentRound).card <
          (stratAt g.teamA g.mtch.currentRound).card := lt_asymm hB
      refine ⟨?_, ?_, ?_⟩ <;>
        simp [handleShowdown, hshow, hB, h1, potAt]
    · have h1 : ¬ (stratAt g.teamB g.mtch.currentRound).card <
          (stratAt g.teamA g.mtch.currentRound).card := by
        rw [heq]; exact lt_irrefl _
      have h2 : ¬ (stratAt g.teamA g.mtch.currentRound).card <
          (stratAt g.teamB g.mtch.currentRound).card := by
        rw [heq]; exact lt_irrefl _
      refine ⟨?_, ?_, ?_, ?_⟩ <;>
        simp [handleShowdown, hshow, h1, h2, hne, potAt]

/-- C5 witness: team A folds at the Scenario C input (opponent gains the pot
of 10) and team A wins the Scenario A showdown (its winnings grow by the pot
of 6, the opponent's are unchanged). -/
theorem c5_pot_conservation_witness :
    ((handleFold Side.A foldInputC).team Side.A.other).winnings =
        (foldInputC.team Side.A.other).winnings + potAt foldInputC ∧
      (handleShowdown winInput).teamA.winnings =
        winInput.teamA.winnings + potAt winInput ∧
      (handleShowdown winInput).teamB.winnings = winInput.teamB.winnings :=
  ⟨((c5_pot_conservation foldInputC Side.A).1 rfl).1,
   (((c5_pot_conservation winInput Side.A).2 rfl).1 (by decide)).1,
   (((c5_pot_conservation winInput Side.A).2 rfl).1 (by decide)).2.1⟩

/-- C6 counterexample: confirming is not unconditionally idempotent.  At a
RESULT match where the opponent has already confirmed, team A's confirmation
fires the gate (round 3 → 4, map cleared); a second confirmation by the same
team — the handler has no status guard — re-records team A in the freshly
cleared map, so the state changes again. -/
theorem c6_double_confirm_not_idempotent :
    (handleConfirmResult Side.A mResult3).currentRound = 4 ∧
    (handleConfirmResult Side.A mResult3).resultConfirmed = ⟨false, false⟩ ∧
    (handleConfirmResult Side.A (handleConfirmResult Side.A mResult3)).resultConfirmed =
      ⟨true, false⟩ ∧
    handleConfirmResult Side.A (handleConfirmResult Side.A mResult3) ≠
      handleConfirmResult Side.A mResult3 := by
  refine ⟨?_, ?_, ?_, ?_⟩ <;>
    simp [handleConfirmResult, mResult3, Confirmed.set, TOTAL_ROUNDS]

/-- C6 (amended): a second confirmation by the same team has no additional
effect provided the opponent's entry is still false (the gate has not fired);
`currentRound` is monotone and grows by at most 1, and it grows by exactly 1
— clearing `resultConfirmed` and `lastRoundResult` and returning to READY —
exactly when both entries of the updated map are true and the match is not on
its final round; when both entries are true on the final round the match
moves to FINISHED with `currentRound` unchanged. -/
theorem c6_confirm_gate (m : Match) (s : Side) :
    (m.resultConfirmed.get s.other = false →
      handleConfirmResult s (handleConfirmResult s m) = handleConfirmResult s m) ∧
    m.currentRound ≤ (handleConfirmResult s m).currentRound ∧
    (handleConfirmResult s m).currentRound ≤ m.currentRound + 1 ∧
    ((handleConfirmResult s m).currentRound = m.currentRound + 1 ↔
      ((m.resultConfirmed.set s true).a = true ∧
        (m.resultConfirmed.set s true).b = true ∧
        m.currentRound + 1 ≤ TOTAL_ROUNDS)) ∧
    ((m.resultConfirmed.set s true).a = true →
      (m.resultConfirmed.set s true).b = true →
      m.currentRound + 1 ≤ TOTAL_ROUNDS →
      (handleConfirmResult s m).currentRound = m.currentRound + 1 ∧
      (handleConfirmResult s m).roundStatus = RoundStatus.READY ∧
      (handleConfirmResult s m).resultConfirmed = ⟨false, false⟩ ∧
      (handleConfirmResult s m).lastRoundResult = none) ∧
    ((m.resultConfirmed.set s true).a = true →
      (m.resultConfirmed.set s true).b = true →
      TOTAL_ROUNDS < m.currentRound + 1 →
      (handleConfirmResult s m).roundStatus = RoundStatus.FINISHED ∧
      (handleConfirmResult s m).currentRound = m.currentRound) := by
  rcases m with ⟨cr, st, tw, pot, co, sa, sb, lrr, ⟨ca, cb⟩, la, hist⟩
  cases s <;> cases ca <;> cases cb <;>
    by_cases hend : TOTAL_ROUNDS < cr + 1 <;>
      simp [handleConfirmResult, Confirmed.set, Confirmed.get, Side.other, hend] <;>
      omega

/-- C6 witness: at a round-5 RESULT match where nobody has confirmed yet,
team A confirming twice equals confirming once, and the round counter stays
within its monotone bounds. -/
theorem c6_confirm_gate_witness :
    (handleConfirmResult Side.A (handleConfirmResult Side.A mResult5) =
        handleConfirmResult Side.A mResult5) ∧
      mResult5.currentRound ≤ (handleConfirmResult Side.A mResult5).currentRound ∧
      (handleConfirmResult Side.A mResult5).currentRound ≤ mResult5.currentRound + 1 :=
  ⟨(c6_confirm_gate mResult5 Side.A).1 rfl,
   (c6_confirm_gate mResult5 Side.A).2.1,
   (c6_confirm_gate mResult5 Side.A).2.2.1⟩

theorem getD_eq_of_take_eq (l₁ l₂ : List RoundStrategy) (cur j : ℕ) (d : RoundStrategy)
    (h : l₁.take cur = l₂.take cur) (hj : j < cur) :
    l₁.getD j d = l₂.getD j d := by
  have h1 : l₁[j]? = (l₁.take cur)[j]? := (List.getElem?_take_of_lt hj).symm
  have h2 : l₂[j]? = (l₂.take cur)[j]? := (List.getElem?_take_of_lt hj).symm
  simp [List.getD, h1, h2, h]

/-- C7: safety of the steal sub-protocol.  Every draft the modal can reach
keeps all chips at or above the 1-chip floor, changes nothing at or before the
current round (chips come only from strictly later rounds), and when the
confirm gate `canConfirmSteal` is open the accumulated `stolenTotal` covers
`needed` and acceptance drains the winnings to 0, raises the current round's
chips to exactly the opponent's bet, and moves to SHOWDOWN; cancelling
changes no match or team state and leaves the match in DECISION. -/
theorem c7_steal_protocol (g : GameState) (s : Side) (needed : ℚ)
    (temp : List RoundStrategy)
    (hreach : StealReach (g.team s).strategy g.mtch.currentRound needed temp)
    (hcur1 : 1 ≤ g.mtch.currentRound)
    (hcurlen : g.mtch.currentRound ≤ (g.team s).strategy.length)
    (hone : ∀ r ∈ (g.team s).strategy, 1 ≤ r.chips) :
    (∀ r ∈ temp, 1 ≤ r.chips) ∧
    temp.take g.mtch.currentRound = (g.team s).strategy.take g.mtch.currentRound ∧
    (canConfirmSteal (g.team s).strategy temp g.mtch.currentRound needed = true →
      needed ≤ stolenTotalOf (g.team s).strategy temp (g.mtch.currentRound - 1) ∧
      ((confirmSteal s g temp).team s).winnings = 0 ∧
      (stratAt ((confirmSteal s g temp).team s) g.mtch.currentRound).chips =
        (stratAt (g.team s.other) g.mtch.currentRound).chips ∧
      (confirmSteal s g temp).mtch.roundStatus = RoundStatus.SHOWDOWN) ∧
    stealCancel g = g ∧
    (g.mtch.roundStatus = RoundStatus.DECISION →
      (stealCancel g).mtch.roundStatus = RoundStatus.DECISION) := by
  have hlen : temp.length = (g.team s).strategy.length := hreach.length_eq
  have hidx : g.mtch.currentRound - 1 < temp.length := by omega
  have hteam : (confirmSteal s g temp).team s =
      { g.team s with
          winnings := 0
          strategy := setChips temp (g.mtch.currentRound - 1)
            ((temp.getD (g.mtch.currentRound - 1) default).chips +
              ((stratAt (g.team s.other) g.mtch.currentRound).chips -
                (stratAt (g.team s) g.mtch.currentRound).chips)) } := by
    cases s <;> rfl
  have hstatus : (confirmSteal s g temp).mtch.roundStatus = RoundStatus.SHOWDOWN := by
    cases s <;> rfl
  refine ⟨hreach.chips_ge_one hone, hreach.take_eq, fun hgate => ?_, rfl, fun h => h⟩
  have hgate' : needed ≤ calculateStolenAmount (g.team s).strategy temp
      g.mtch.currentRound := by
    simpa [canConfirmSteal] using hgate
  refine ⟨?_, ?_, ?_, hstatus⟩
  · rw [hreach.stolenTotal_eq hcur1]
    exact hgate'
  · rw [hteam]
  · rw [hteam]
    simp only [stratAt]
    rw [setChips_getD_same _ _ _ _ hidx]
    rw [getD_eq_of_take_eq temp (g.team s).strategy g.mtch.currentRound
        (g.mtch.currentRound - 1) default hreach.take_eq (by omega)]
    ring

/-- C7 witness: at the underfunded Scenario C input (needed 2), the draft
obtained by the two modal clicks on rounds 6 and 8 satisfies the floor and
future-only invariants, opens the gate with a stolen total of exactly 2, and
acceptance equalises the round-5 bets at 6 while draining winnings to 0. -/
theorem c7_steal_protocol_witness :
    (∀ r ∈ tempW, 1 ≤ r.chips) ∧
      tempW.take callPoorInput.mtch.currentRound =
        (callPoorInput.team Side.A).strategy.take callPoorInput.mtch.currentRound ∧
      (2 ≤ stolenTotalOf (callPoorInput.team Side.A).strategy tempW
          (callPoorInput.mtch.currentRound - 1) ∧
        ((confirmSteal Side.A callPoorInput tempW).team Side.A).winnings = 0 ∧
        (stratAt ((confirmSteal Side.A callPoorInput tempW).team Side.A)
            callPoorInput.mtch.currentRound).chips =
          (stratAt (callPoorInput.team Side.A.other)
            callPoorInput.mtch.currentRound).chips ∧
        (confirmSteal Side.A callPoorInput tempW).mtch.roundStatus =
          RoundStatus.SHOWDOWN) ∧
      stealCancel callPoorInput = callPoorInput := by
  have h := c7_steal_protocol callPoorInput Side.A 2 tempW
    (StealReach.step _ 7 (by decide) (StealReach.step _ 5 (by decide) StealReach.init))
    (by decide) (by decide)
    (by norm_num [callPoorInput, foldInputC, GameState.team, stratA1])
  have hgate : canConfirmSteal (callPoorInput.team Side.A).strategy tempW
      callPoorInput.mtch.currentRound 2 = true := by
    norm_num [canConfirmSteal, calculateStolenAmount, diffSum, tempW,
      adjustTempChips, setChips, List.getD, callPoorInput, foldInputC,
      GameState.team, stratA1]
  exact ⟨h.1, h.2.1, h.2.2.1 hgate, h.2.2.2.1⟩

theorem creditChips_getD_chips (l : List RoundStrategy) (i : ℕ) (v : ℚ)
    (d : RoundStrategy) (h : i < l.length) :
    ((creditChips l i v).getD i d).chips = (l.getD i d).chips + v := by
  rw [creditChips_getD_same _ _ _ _ h]

/-- C8: a Call by the turn owner.  Funded (`diff ≤ winnings`): no steal modal
opens, exactly `diff` is debited from the caller's winnings and credited to
its current-round chips — equalising the two bets — the opponent is untouched
and the match moves to SHOWDOWN.  Underfunded: the shared state is unchanged
and the steal modal opens with `needed = diff − winnings` over a copy of the
caller's strategy. -/
theorem c8_call_branches (g : GameState) (s : Side)
    (hturn : g.mtch.turnOwner = some s)
    (hdec : g.mtch.roundStatus = RoundStatus.DECISION)
    (hidx : g.mtch.currentRound - 1 < (g.team s).strategy.length) :
    ((stratAt (g.team s.other) g.mtch.currentRound).chips -
        (stratAt (g.team s) g.mtch.currentRound).chips ≤ (g.team s).winnings →
      (handleCall s g).2 = none ∧
      ((handleCall s g).1.team s).winnings =
        (g.team s).winnings -
          ((stratAt (g.team s.other) g.mtch.currentRound).chips -
            (stratAt (g.team s) g.mtch.currentRound).chips) ∧
      (stratAt ((handleCall s g).1.team s) g.mtch.currentRound).chips =
        (stratAt (g.team s.other) g.mtch.currentRound).chips ∧
      (handleCall s g).1.team s.other = g.team s.other ∧
      (handleCall s g).1.mtch.roundStatus = RoundStatus.SHOWDOWN) ∧
    ((g.team s).winnings <
        (stratAt (g.team s.other) g.mtch.currentRound).chips -
          (stratAt (g.team s) g.mtch.currentRound).chips →
      (handleCall s g).1 = g ∧
      (handleCall s g).2 = some
        ⟨(stratAt (g.team s.other) g.mtch.currentRound).chips -
            (stratAt (g.team s) g.mtch.currentRound).chips - (g.team s).winnings,
          (g.team s).strategy⟩) := by
  have hne : ¬ (g.mtch.turnOwner ≠ some s) := by simp [hturn]
  constructor
  · intro hfund
    have hcall : handleCall s g =
        ({ g.setTeam s
            { g.team s with
                winnings := (g.team s).winnings -
                  ((stratAt (g.team s.other) g.mtch.currentRound).chips -
                    (stratAt (g.team s) g.mtch.currentRound).chips)
                strategy := creditChips (g.team s).strategy (g.mtch.currentRound - 1)
                  ((stratAt (g.team s.other) g.mtch.currentRound).chips -
                    (stratAt (g.team s) g.mtch.currentRound).chips) } with
           mtch := { g.mtch with
             roundStatus := RoundStatus.SHOWDOWN
             turnOwner := none
             lastAction := some (LastAction.call s) } }, none) := by
      simp only [handleCall]
      rw [if_neg hne, if_pos hfund]
      cases s <;> rfl
    have hteamS : (handleCall s g).1.team s =
        { g.team s with
            winnings := (g.team s).winnings -
              ((stratAt (g.team s.other) g.mtch.currentRound).chips -
                (stratAt (g.team s) g.mtch.currentRound).chips)
            strategy := creditChips (g.team s).strategy (g.mtch.currentRound - 1)
              ((stratAt (g.team s.other) g.mtch.currentRound).chips -
                (stratAt (g.team s) g.mtch.currentRound).chips) } := by
      rw [hcall]; cases s <;> rfl
    refine ⟨by rw [hcall], by rw [hteamS], ?_, ?_, by rw [hcall]⟩
    · rw [hteamS]
      simp only [stratAt]
      rw [creditChips_getD_chips _ _ _ _ hidx]
      ring
    · rw [hcall]; cases s <;> rfl
  · intro hpoor
    have hnle : ¬ ((stratAt (g.team s.other) g.mtch.currentRound).chips -
        (stratAt (g.team s) g.mtch.currentRound).chips ≤ (g.team s).winnings) :=
      not_le.mpr hpoor
    have hcall2 : handleCall s g = (g, some
        ⟨(stratAt (g.team s.other) g.mtch.currentRound).chips -
            (stratAt (g.team s) g.mtch.currentRound).chips - (g.team s).winnings,
          (g.team s).strategy⟩) := by
      simp only [handleCall]
      rw [if_neg hne, if_neg hnle]
    rw [hcall2]
    exact ⟨rfl, rfl⟩

/-- C8 witness: at the Scenario C input (diff 3, winnings 10) the Call debits
3, equalises the round-5 bets at 6 and reaches SHOWDOWN; at the underfunded
variant (winnings 1) the Call leaves the state alone and opens the modal with
needed 2. -/
theorem c8_call_branches_witness :
    ((handleCall Side.A foldInputC).2 = none ∧
      ((handleCall Side.A foldInputC).1.team Side.A).winnings =
        foldInputC.teamA.winnings - 3 ∧
      (stratAt ((handleCall Side.A foldInputC).1.team Side.A)
          foldInputC.mtch.currentRound).chips = 6 ∧
      (handleCall Side.A foldInputC).1.mtch.roundStatus = RoundStatus.SHOWDOWN) ∧
    ((handleCall Side.A callPoorInput).1 = callPoorInput ∧
      (handleCall Side.A callPoorInput).2 = some ⟨2, stratA1⟩) := by
  have hfund : (stratAt (foldInputC.team Side.A.other) foldInputC.mtch.currentRound).chips -
      (stratAt (foldInputC.team Side.A) foldInputC.mtch.currentRound).chips ≤
        (foldInputC.team Side.A).winnings := by
    norm_num [stratAt, foldInputC, GameState.team, Side.other, stratA1, stratB1, List.getD]
  have hpoor : (callPoorInput.team Side.A).winnings <
      (stratAt (callPoorInput.team Side.A.other) callPoorInput.mtch.currentRound).chips -
        (stratAt (callPoorInput.team Side.A) callPoorInput.mtch.currentRound).chips := by
    norm_num [stratAt, callPoorInput, foldInputC, GameState.team, Side.other,
      stratA1, stratB1, List.getD]
  have h1 := (c8_call_branches foldInputC Side.A rfl rfl (by decide)).1 hfund
  have h2 := (c8_call_branches callPoorInput Side.A rfl rfl (by decide)).2 hpoor
  have e1 : (stratAt (foldInputC.team Side.A.other) foldInputC.mtch.currentRound).chips -
      (stratAt (foldInputC.team Side.A) foldInputC.mtch.currentRound).chips = 3 := by
    norm_num [stratAt, foldInputC, GameState.team, Side.other, stratA1, stratB1, List.getD]
  have e2 : (stratAt (foldInputC.team Side.A.other) foldInputC.mtch.currentRound).chips = 6 := by
    norm_num [stratAt, foldInputC, GameState.team, Side.other, stratB1, List.getD]
  have e3 : (stratAt (callPoorInput.team Side.A.other) callPoorInput.mtch.currentRound).chips -
      (stratAt (callPoorInput.team Side.A) callPoorInput.mtch.currentRound).chips -
        (callPoorInput.team Side.A).winnings = 2 := by
    norm_num [stratAt, callPoorInput, foldInputC, GameState.team, Side.other,
      stratA1, stratB1, List.getD]
  refine ⟨⟨h1.1, ?_, ?_, h1.2.2.2.2⟩, h2.1, ?_⟩
  · rw [h1.2.1, e1]; rfl
  · rw [h1.2.2.1, e2]
  · rw [h2.2, e3]; rfl

/-- C9: the automatic READY-entry evaluation.  Any side other than the A slot
leaves the state alone; run by the A slot on a READY match it compares the
two current-round bets and moves straight to SHOWDOWN when they are equal,
otherwise to DECISION with the turn owned by the side holding fewer chips. -/
theorem c9_ready_evaluation (g : GameState) (s : Side) :
    (s ≠ Side.A → readyEval true s g = g) ∧
    (g.mtch.roundStatus = RoundStatus.READY →
      ((stratAt g.teamA g.mtch.currentRound).chips =
          (stratAt g.teamB g.mtch.currentRound).chips →
        readyEval true Side.A g =
          { g with mtch := { g.mtch with roundStatus := RoundStatus.SHOWDOWN } }) ∧
      ((stratAt g.teamA g.mtch.currentRound).chips <
          (stratAt g.teamB g.mtch.currentRound).chips →
        readyEval true Side.A g =
          { g with mtch := { g.mtch with roundStatus := RoundStatus.DECISION,
                                         turnOwner := some Side.A } }) ∧
      ((stratAt g.teamB g.mtch.currentRound).chips <
          (stratAt g.teamA g.mtch.currentRound).chips →
        readyEval true Side.A g =
          { g with mtch := { g.mtch with roundStatus := RoundStatus.DECISION,
                                         turnOwner := some Side.B } })) := by
  constructor
  · intro hs
    simp [readyEval, hs]
  · intro hready
    refine ⟨fun heq => ?_, fun hlt => ?_, fun hgt => ?_⟩
    · simp [readyEval, hready, GameState.team, Side.other, heq]
    · simp [readyEval, hready, GameState.team, Side.other, ne_of_lt hlt, hlt]
    · simp [readyEval, hready, GameState.team, Side.other, ne_of_gt hgt,
            not_lt.mpr hgt.le]

/-- C9 witness: at round 1 of the sample match (bets 2 against 5) the B slot's
evaluation changes nothing, and the A slot's evaluation moves the match to
DECISION with team A — the side with fewer chips — owning the turn. -/
theorem c9_ready_evaluation_witness :
    readyEval true Side.B readyInput = readyInput ∧
      readyEval true Side.A readyInput =
        { readyInput with
            mtch := { readyInput.mtch with roundStatus := RoundStatus.DECISION,
                                           turnOwner := some Side.A } } :=
  ⟨(c9_ready_evaluation readyInput Side.B).1 (by decide),
   ((c9_ready_evaluation readyInput Side.A).2 rfl).2.1
     (by norm_num [stratAt, readyInput, stratA1, stratB1, List.getD])⟩

/-- C10: the acting team's resource total (winnings plus all ten rounds'
chips) is preserved by a funded Call — exactly `diff` moves from winnings to
the current round — and by an accepted Steal, where the gate and the
per-click bound force the stolen total to equal `needed = diff − winnings`
exactly, so the drained winnings equal the net chips added. -/
theorem c10_resource_conservation (g : GameState) (s : Side) :
    (g.mtch.turnOwner = some s →
      g.mtch.currentRound - 1 < (g.team s).strategy.length →
      (stratAt (g.team s.other) g.mtch.currentRound).chips -
          (stratAt (g.team s) g.mtch.currentRound).chips ≤ (g.team s).winnings →
      totalResources ((handleCall s g).1.team s) = totalResources (g.team s)) ∧
    (∀ needed temp,
      StealReach (g.team s).strategy g.mtch.currentRound needed temp →
      1 ≤ g.mtch.currentRound →
      g.mtch.currentRound ≤ (g.team s).strategy.length →
      needed = (stratAt (g.team s.other) g.mtch.currentRound).chips -
          (stratAt (g.team s) g.mtch.currentRound).chips - (g.team s).winnings →
      0 ≤ needed →
      canConfirmSteal (g.team s).strategy temp g.mtch.currentRound needed = true →
      totalResources ((confirmSteal s g temp).team s) = totalResources (g.team s)) := by
  constructor
  · intro hturn hidx hfund
    have hne : ¬ (g.mtch.turnOwner ≠ some s) := by simp [hturn]
    have hcall : (handleCall s g).1.team s =
        { g.team s with
            winnings := (g.team s).winnings -
              ((stratAt (g.team s.other) g.mtch.currentRound).chips -
                (stratAt (g.team s) g.mtch.currentRound).chips)
            strategy := creditChips (g.team s).strategy (g.mtch.currentRound - 1)
              ((stratAt (g.team s.other) g.mtch.currentRound).chips -
                (stratAt (g.team s) g.mtch.currentRound).chips) } := by
      simp only [handleCall]
      rw [if_neg hne, if_pos hfund]
      cases s <;> rfl
    rw [hcall]
    simp only [totalResources]
    rw [chipsSum_creditChips _ _ _ hidx]
    ring
  · intro needed temp hreach hcur1 hcurlen hneedEq hneed0 hgate
    have hlen : temp.length = (g.team s).strategy.length := hreach.length_eq
    have hidx2 : g.mtch.currentRound - 1 < temp.length := by omega
    have hteam : (confirmSteal s g temp).team s =
        { g.team s with
            winnings := 0
            strategy := setChips temp (g.mtch.currentRound - 1)
              ((temp.getD (g.mtch.currentRound - 1) default).chips +
                ((stratAt (g.team s.other) g.mtch.currentRound).chips -
                  (stratAt (g.team s) g.mtch.currentRound).chips)) } := by
      cases s <;> rfl
    have hstolen : calculateStolenAmount (g.team s).strategy temp
        g.mtch.currentRound = needed :=
      le_antisymm (hreach.stolen_le_needed hneed0)
        (by simpa [canConfirmSteal] using hgate)
    rw [hteam]
    simp only [totalResources]
    rw [chipsSum_setChips _ _ _ hidx2, hreach.chipsSum_eq, hstolen, hneedEq]
    ring

/-- C10 witness: the funded Call at the Scenario C input keeps team A's total
at 40, and the accepted Steal at the underfunded variant keeps team A's total
at 31. -/
theorem c10_resource_conservation_witness :
    totalResources ((handleCall Side.A foldInputC).1.team Side.A) =
        totalResources (foldInputC.team Side.A) ∧
      totalResources ((confirmSteal Side.A callPoorInput tempW).team Side.A) =
        totalResources (callPoorInput.team Side.A) := by
  have hfund : (stratAt (foldInputC.team Side.A.other) foldInputC.mtch.currentRound).chips -
      (stratAt (foldInputC.team Side.A) foldInputC.mtch.currentRound).chips ≤
        (foldInputC.team Side.A).winnings := by
    norm_num [stratAt, foldInputC, GameState.team, Side.other, stratA1, stratB1, List.getD]
  have hneedEq : (2 : ℚ) =
      (stratAt (callPoorInput.team Side.A.other) callPoorInput.mtch.currentRound).chips -
        (stratAt (callPoorInput.team Side.A) callPoorInput.mtch.currentRound).chips -
          (callPoorInput.team Side.A).winnings := by
    norm_num [stratAt, callPoorInput, foldInputC, GameState.team, Side.other,
      stratA1, stratB1, List.getD]
  have hgate : canConfirmSteal (callPoorInput.team Side.A).strategy tempW
      callPoorInput.mtch.currentRound 2 = true := by
    norm_num [canConfirmSteal, calculateStolenAmount, diffSum, tempW,
      adjustTempChips, setChips, List.getD, callPoorInput, foldInputC,
      GameState.team, stratA1]
  exact ⟨(c10_resource_conservation foldInputC Side.A).1 rfl (by decide) hfund,
    (c10_resource_conservation callPoorInput Side.A).2 2 tempW
      (StealReach.step _ 7 (by decide) (StealReach.step _ 5 (by decide) StealReach.init))
      (by decide) (by decide) hneedEq (by norm_num) hgate⟩

end SwotGame
